import Mathlib

/-!
Formal model of the escape-time fractal renderer of this repository
(`src/lib/fractal/worker.ts`, `src/lib/fractal/renderer.ts`,
`src/lib/fractal/types.ts`).

JavaScript `number`s are modelled as real numbers: `Math.log`, `Math.sqrt`,
`Math.atan2`, `Math.pow`, … become `Real.log`, `Real.sqrt`, `Complex.arg`,
`Real.rpow`, ….  In this idealised model every real number is finite, so the
`isFinite` overflow guards of the complex-exponent path can never fire; this
is noted where it matters.  Pixel-space and tile-grid quantities are natural
numbers, request identifiers are integers (the worker's cancel sentinel is
`-1`).
-/

open Classical

namespace Caesar

/-- `FractalParams` from types.ts. -/
structure FractalParams where
  realZ0 : ℝ
  imagZ0 : ℝ
  realC : ℝ
  imagC : ℝ
  exponent : ℝ
  imagExponent : ℝ
  colorHue : ℝ

/-- `Viewport` from types.ts. -/
structure Viewport where
  centerX : ℝ
  centerY : ℝ
  zoom : ℝ

/-- `RenderQuality` from types.ts. -/
structure RenderQuality where
  maxIterations : ℕ
  tileSize : ℕ
  tilesPerFrame : ℕ

/-- worker.ts `isInCardioid` (lines 11-14), with
`q = (x - 0.25)² + y²` inlined. -/
def isInCardioid (x y : ℝ) : Prop :=
  ((x - 0.25) * (x - 0.25) + y * y) *
      (((x - 0.25) * (x - 0.25) + y * y) + (x - 0.25)) <
    0.25 * (y * y)

/-- worker.ts `isInPeriod2Bulb` (lines 16-18). -/
def isInPeriod2Bulb (x y : ℝ) : Prop :=
  (x + 1) * (x + 1) + y * y < 0.0625

/-- `Math.atan2`, modelled by the principal argument of `x + i*y`. -/
noncomputable def atan2 (y x : ℝ) : ℝ :=
  Complex.arg ⟨x, y⟩

/-- The smooth escape value computed by the worker when `zrSq + ziSq > 4`
holds at iteration `iter` (worker.ts lines 53-57):
`log_zn = log z2 / 2`, `nu = log (log_zn / log 2) / log 2`,
result `iter + 1 - nu`. -/
noncomputable def smoothEscape (iter : ℕ) (z2 : ℝ) : ℝ :=
  iter + 1 - Real.log (Real.log z2 / 2 / Real.log 2) / Real.log 2

/-- The `while` loop of worker.ts `computePixel` (lines 51-112).  The fuel
argument counts the remaining iterations (`maxIterations - iteration`); the
`iter` argument is the current value of `iteration`.  In this real-number
model `isFinite` always holds, so the two overflow guards of the
complex-exponent path (lines 95 and 103) are unreachable and drop out. -/
noncomputable def iterateZ (p : FractalParams) (cr ci : ℝ) :
    ℕ → ℕ → ℝ → ℝ → ℝ
  | 0, _, _, _ => -1
  | fuel + 1, iter, zr, zi =>
    if zr * zr + zi * zi > 4 then smoothEscape iter (zr * zr + zi * zi)
    else if p.exponent = 2 ∧ p.imagExponent = 0 then
      iterateZ p cr ci fuel (iter + 1) (zr * zr - zi * zi + cr) (2 * zr * zi + ci)
    else if p.imagExponent = 0 then
      let r := Real.sqrt (zr * zr + zi * zi)
      let rk := r ^ p.exponent
      let thetaK := atan2 zi zr * p.exponent
      iterateZ p cr ci fuel (iter + 1) (rk * Real.cos thetaK + cr) (rk * Real.sin thetaK + ci)
    else
      let r := Real.sqrt (zr * zr + zi * zi)
      if r < 1e-10 then -1
      else
        let theta := atan2 zi zr
        let magnitude := r ^ p.exponent * Real.exp (-p.imagExponent * theta)
        let angle := p.exponent * theta + p.imagExponent * Real.log r
        iterateZ p cr ci fuel (iter + 1) (magnitude * Real.cos angle + cr)
          (magnitude * Real.sin angle + ci)

/-- worker.ts `computePixel` (lines 24-115).  The boolean mode flag
`useJulia` is modelled as a proposition.  Returns the smooth iteration
count, or `-1` when the point is taken to be inside the set. -/
noncomputable def computePixel (x0 y0 : ℝ) (p : FractalParams)
    (maxIterations : ℕ) (useJulia : Prop) : ℝ :=
  if ¬useJulia ∧ (isInCardioid x0 y0 ∨ isInPeriod2Bulb x0 y0) then -1
  else
    iterateZ p (if useJulia then p.realC else x0) (if useJulia then p.imagC else y0)
      maxIterations 0
      (if useJulia then x0 else p.realZ0) (if useJulia then y0 else p.imagZ0)

/-- JavaScript's `%` on numbers (`fmod`): truncated division remainder. -/
noncomputable def jsFmod (x y : ℝ) : ℝ :=
  x - y * (if 0 ≤ x / y then (⌊x / y⌋ : ℤ) else (⌈x / y⌉ : ℤ))

/-- `Math.round`: round half away from zero is round half up for the
non-negative values that occur here. -/
noncomputable def jsRound (x : ℝ) : ℤ :=
  ⌊x + 1 / 2⌋

/-- `hsvToRgb` — two identical copies exist in the source, worker.ts lines
120-146 and renderer.ts lines 331-357. -/
noncomputable def hsvToRgb (h s v : ℝ) : ℤ × ℤ × ℤ :=
  let c := v * s
  let x := c * (1 - |jsFmod (h / 60) 2 - 1|)
  let m := v - c
  let rgb : ℝ × ℝ × ℝ :=
    if h < 60 then (c, x, 0)
    else if h < 120 then (x, c, 0)
    else if h < 180 then (0, c, x)
    else if h < 240 then (0, x, c)
    else if h < 300 then (x, 0, c)
    else (c, 0, x)
  (jsRound ((rgb.1 + m) * 255), jsRound ((rgb.2.1 + m) * 255), jsRound ((rgb.2.2 + m) * 255))

/-- The per-pixel colouring of worker.ts `computeTile` (lines 193-214):
opaque black for the inside sentinel, otherwise HSV colouring from
`t = sqrt (smoothIter / maxIterations)` with saturation `0.85`.
Returns RGBA. -/
noncomputable def colorPixel (colorHue : ℝ) (maxIterations : ℕ) (smoothIter : ℝ) :
    ℤ × ℤ × ℤ × ℤ :=
  if smoothIter < 0 then (0, 0, 0, 255)
  else
    let t := Real.sqrt (smoothIter / maxIterations)
    let hue := jsFmod (colorHue + t * 360) 360
    let value := 0.5 + t * 0.5
    let rgb := hsvToRgb hue 0.85 value
    (rgb.1, rgb.2.1, rgb.2.2, 255)

/-- The per-pixel loop body of renderer.ts `FractalRenderer.recolor`
(lines 301-325), including the hard-coded
`maxIterations = isInteracting ? 64 : 256` of line 313. -/
noncomputable def recolorPixel (isInteracting : Bool) (newHue : ℝ) (smoothIter : ℝ) :
    ℤ × ℤ × ℤ × ℤ :=
  if smoothIter < 0 then (0, 0, 0, 255)
  else
    let maxIterations : ℕ := if isInteracting then 64 else 256
    let t := Real.sqrt (smoothIter / maxIterations)
    let hue := jsFmod (newHue + t * 360) 360
    let value := 0.5 + t * 0.5
    let rgb := hsvToRgb hue 0.85 value
    (rgb.1, rgb.2.1, rgb.2.2, 255)

/-- `Tile` from types.ts; the RGBA8 buffer is a row-major list of RGBA
quadruples. -/
structure Tile where
  x : ℕ
  y : ℕ
  width : ℕ
  height : ℕ
  imageData : List (ℤ × ℤ × ℤ × ℤ)

/-- worker.ts `computeTile` (lines 151-225): pixel→plane mapping, the
Julia/Mandelbrot mode heuristic, and the per-pixel colouring. -/
noncomputable def computeTile (tileX tileY tileWidth tileHeight canvasWidth canvasHeight : ℕ)
    (viewport : Viewport) (p : FractalParams) (maxIterations : ℕ) : Tile :=
  let aspect := (canvasWidth : ℝ) / (canvasHeight : ℝ)
  let scale := 4 / viewport.zoom
  let useJulia : Prop :=
    (|p.realC - 0| > 0.001 ∨ |p.imagC| > 0.001) ∧ (|p.realZ0| < 0.001 ∧ |p.imagZ0| < 0.001)
  { x := tileX, y := tileY, width := tileWidth, height := tileHeight,
    imageData :=
      (List.range tileHeight).flatMap (fun py =>
        (List.range tileWidth).map (fun px =>
          let screenX : ℝ := ((tileX + px : ℕ) : ℝ)
          let screenY : ℝ := ((tileY + py : ℕ) : ℝ)
          let x0 := viewport.centerX + ((screenX / canvasWidth - 0.5) * scale * aspect)
          let y0 := viewport.centerY - ((screenY / canvasHeight - 0.5) * scale)
          colorPixel p.colorHue maxIterations (computePixel x0 y0 p maxIterations useJulia))) }

/-! ## Tile grid and scheduler (worker.ts `handleRenderRequest`) -/

/-- `Math.ceil (w / tileSize)` for natural inputs (worker.ts lines 236-237). -/
def tilesAcross (w tileSize : ℕ) : ℕ :=
  (w + tileSize - 1) / tileSize

/-- The row-major tile-coordinate list generated by worker.ts lines 248-252. -/
def mkTiles (tilesX tilesY : ℕ) : List (ℕ × ℕ) :=
  (List.range tilesY).flatMap (fun ty => (List.range tilesX).map (fun tx => (tx, ty)))

/-- Squared Euclidean distance, in tile-grid units, from the centre tile
`(⌊tilesX/2⌋, ⌊tilesY/2⌋)` (worker.ts lines 244-245).  The worker's
comparator (lines 255-259) compares `Math.sqrt` of these integer values;
square root is strictly monotone, so the comparator orders tiles exactly by
this key. -/
def distKey (tilesX tilesY : ℕ) (t : ℕ × ℕ) : ℕ :=
  ((t.1 : ℤ) - ((tilesX / 2 : ℕ) : ℤ)).natAbs ^ 2 +
    ((t.2 : ℤ) - ((tilesY / 2 : ℕ) : ℤ)).natAbs ^ 2

/-- Strict upper bound for `distKey` over the grid. -/
def distBound (tilesX tilesY : ℕ) : ℕ :=
  tilesX ^ 2 + tilesY ^ 2 + 1

/-- `tiles.sort(comparator)` (worker.ts lines 255-259).  ECMAScript requires
`Array.prototype.sort` to be stable, and the comparator orders by distance
from the centre tile, so the sorted array is the unique stable sort by
`distKey`: for each distance value in increasing order, the tiles at that
distance in their original row-major order. -/
def sortTiles (tilesX tilesY : ℕ) : List (ℕ × ℕ) :=
  (List.range (distBound tilesX tilesY)).flatMap
    (fun d => (mkTiles tilesX tilesY).filter (fun t => decide (distKey tilesX tilesY t = d)))

/-- A clipped tile rectangle in canvas pixel space. -/
structure PixelRect where
  x : ℕ
  y : ℕ
  width : ℕ
  height : ℕ
deriving DecidableEq

/-- The pixel rectangle of grid tile `(tx, ty)` (worker.ts lines 277-280):
position `(tx*tileSize, ty*tileSize)`, clipped to the canvas. -/
def tileRect (w h tileSize : ℕ) (t : ℕ × ℕ) : PixelRect :=
  { x := t.1 * tileSize
    y := t.2 * tileSize
    width := min tileSize (w - t.1 * tileSize)
    height := min tileSize (h - t.2 * tileSize) }

/-- All tile rectangles of a render pass over a `w × h` canvas, in
generation order. -/
def tileRects (w h tileSize : ℕ) : List PixelRect :=
  (mkTiles (tilesAcross w tileSize) (tilesAcross h tileSize)).map (tileRect w h tileSize)

/-- Pixel `(px, py)` lies in rectangle `r`. -/
def rectContains (r : PixelRect) (px py : ℕ) : Prop :=
  r.x ≤ px ∧ px < r.x + r.width ∧ r.y ≤ py ∧ py < r.y + r.height

instance (r : PixelRect) (px py : ℕ) : Decidable (rectContains r px py) := by
  unfold rectContains; infer_instance

/-! ## Worker protocol and event loop -/

/-- `RenderRequest` from types.ts.  `storeIterations` is carried by the
renderer's requests but never read by the worker. -/
structure RenderRequest where
  canvasWidth : ℕ
  canvasHeight : ℕ
  viewport : Viewport
  params : FractalParams
  quality : RenderQuality
  requestId : ℤ
  storeIterations : Bool

/-- `TileResponse` from types.ts.  `iterationData` is declared optional
there. -/
structure TileResponse where
  tile : Tile
  requestId : ℤ
  isComplete : Bool
  iterationData : Option (List ℝ)

/-- `WorkerRequest` from types.ts. -/
inductive WorkerRequest
  | render (req : RenderRequest)
  | cancel (requestId : ℤ)

def reqTilesX (r : RenderRequest) : ℕ := tilesAcross r.canvasWidth r.quality.tileSize

def reqTilesY (r : RenderRequest) : ℕ := tilesAcross r.canvasHeight r.quality.tileSize

/-- `totalTiles` of worker.ts line 238. -/
def totalTiles (r : RenderRequest) : ℕ := reqTilesX r * reqTilesY r

/-- The centre-out-sorted tile list of a request. -/
def reqTiles (r : RenderRequest) : List (ℕ × ℕ) := sortTiles (reqTilesX r) (reqTilesY r)

/-- The `i`-th `TileResponse` emitted for request `r` when no cancellation
intervenes (worker.ts lines 273-303): the `i`-th tile of the sorted list,
clipped to the canvas, with `isComplete ⟺ tilesComputed = totalTiles`,
where `tilesComputed = i + 1` at the `i`-th emission.  The worker never
sets `iterationData`. -/
noncomputable def respAt (r : RenderRequest) (i : ℕ) : TileResponse :=
  let t := (reqTiles r).getD i (0, 0)
  let rect := tileRect r.canvasWidth r.canvasHeight r.quality.tileSize t
  { tile := computeTile rect.x rect.y rect.width rect.height
      r.canvasWidth r.canvasHeight r.viewport r.params r.quality.maxIterations
    requestId := r.requestId
    isComplete := decide (i + 1 = totalTiles r)
    iterationData := none }

/-- `batchEnd` of worker.ts line 271, for a batch starting at `tileIndex`. -/
def batchEnd (r : RenderRequest) (tileIndex : ℕ) : ℕ :=
  min (tileIndex + r.quality.tilesPerFrame) (totalTiles r)

/-- The responses posted by one run of the batch loop (worker.ts lines
273-304) starting at `tileIndex`, when the request is still current. -/
noncomputable def batchResponses (r : RenderRequest) (tileIndex : ℕ) : List TileResponse :=
  (List.range' tileIndex (batchEnd r tileIndex - tileIndex)).map (respAt r)

/-- A pending `processBatch` continuation: the closure scheduled with
`setTimeout(processBatch, 0)` at worker.ts line 310, capturing the request
and the next `tileIndex`. -/
structure Job where
  req : RenderRequest
  tileIndex : ℕ

/-- An event the worker's single thread processes: an incoming message or a
scheduled batch continuation. -/
inductive WorkerEvent
  | msg (m : WorkerRequest)
  | timer (job : Job)

/-- Result of processing one event: the new `currentRequestId`, the posted
tile responses, and the newly scheduled continuations. -/
structure StepResult where
  cur : ℤ
  out : List TileResponse
  queued : List WorkerEvent

/-- One step of the worker's event loop (worker.ts `self.onmessage`, lines
318-326, together with `processBatch`, lines 264-312), as a function of
`currentRequestId`.  A cancel message sets `currentRequestId := -1`
regardless of the id it carries; a render message installs its id and runs
the first batch synchronously (the batch-entry check then trivially
passes); a batch continuation emits only if its request id is still
current.  The per-tile re-check inside the batch loop (line 274) compares
the same two values as the batch-entry check (line 265), and the worker is
single-threaded, so within one batch the check cannot change. -/
noncomputable def workerStep (cur : ℤ) : WorkerEvent → StepResult
  | .msg (.cancel _) => { cur := -1, out := [], queued := [] }
  | .msg (.render r) =>
    { cur := r.requestId
      out := batchResponses r 0
      queued := if batchEnd r 0 < totalTiles r then [.timer ⟨r, batchEnd r 0⟩] else [] }
  | .timer job =>
    if cur = job.req.requestId then
      { cur := cur
        out := batchResponses job.req job.tileIndex
        queued :=
          if batchEnd job.req job.tileIndex < totalTiles job.req then
            [.timer ⟨job.req, batchEnd job.req job.tileIndex⟩]
          else [] }
    else { cur := cur, out := [], queued := [] }

/-- Run the worker's event loop for at most `fuel` steps, FIFO, with newly
scheduled continuations appended at the back of the queue (as the host's
task queue does for `setTimeout(..., 0)`), collecting every posted
`TileResponse` in order. -/
noncomputable def runWorker : ℕ → ℤ → List WorkerEvent → List TileResponse
  | 0, _, _ => []
  | _ + 1, _, [] => []
  | fuel + 1, cur, e :: q =>
    let s := workerStep cur e
    s.out ++ runWorker fuel s.cur (q ++ s.queued)

/-- The responses among `l` carrying request id `R`. -/
def respsFor (R : ℤ) (l : List TileResponse) : List TileResponse :=
  l.filter (fun resp => decide (resp.requestId = R))

/-- No response in `l` carries iteration data. -/
def iterationDataFree (l : List TileResponse) : Prop :=
  ∀ resp ∈ l, resp.iterationData = none

/-! ## Compositor (renderer.ts `FractalRenderer`)

Canvas pixel contents are not modelled, only buffer dimensions and their
tagged viewports; every operation returns the messages it posts to the
worker. -/

/-- The mutable state of a `FractalRenderer` instance (renderer.ts lines
8-54). -/
structure RState where
  currentRequestId : ℤ
  canvasWidth : ℕ
  canvasHeight : ℕ
  overscanWidth : ℕ
  overscanHeight : ℕ
  overscanViewport : Option Viewport
  backgroundWidth : ℕ
  backgroundHeight : ℕ
  backgroundViewport : Option Viewport
  viewport : Viewport
  params : FractalParams
  isInteracting : Bool
  lowQuality : RenderQuality
  highQuality : RenderQuality
  iterationData : Option (List ℝ)
  iterationDataWidth : ℕ
  iterationDataHeight : ℕ
  resolutionMultiplier : ℝ

/-- The constructor's state (renderer.ts lines 56-81).  Freshly created
canvas elements have the default size 300 × 150. -/
def initState (canvasWidth canvasHeight : ℕ) (v : Viewport) (p : FractalParams) : RState :=
  { currentRequestId := 0
    canvasWidth := canvasWidth
    canvasHeight := canvasHeight
    overscanWidth := 300
    overscanHeight := 150
    overscanViewport := none
    backgroundWidth := 300
    backgroundHeight := 150
    backgroundViewport := none
    viewport := v
    params := p
    isInteracting := false
    lowQuality := ⟨64, 64, 8⟩
    highQuality := ⟨256, 32, 4⟩
    iterationData := none
    iterationDataWidth := 0
    iterationDataHeight := 0
    resolutionMultiplier := 1 }

/-- The adaptive final-quality iteration budget of renderer.ts lines
452-455: `min 512 ⌊128 + log2 zoom * 32⌋` (non-negative for every zoom the
renderer admits, since zoom is clamped to at least `0.5`). -/
noncomputable def adaptiveMaxIterations (zoom : ℝ) : ℕ :=
  min 512 (⌊(128 : ℝ) + Real.logb 2 zoom * 32⌋).toNat

/-- renderer.ts `render` (lines 362-473): bump the request id, post a
cancel for the previous id, resize the overscan buffer to
`⌊1.5 × canvas⌋` (the buffer-seeding `drawImage` calls only move pixels,
which are not modelled), tag it with the current viewport, pick the
quality profile — mutating `highQuality.maxIterations` in place through
the adaptive scaling when not interacting — and post the render request
with `storeIterations: true`. -/
noncomputable def renderStep (s : RState) : RState × List WorkerRequest :=
  let rid := s.currentRequestId + 1
  let ow := 3 * s.canvasWidth / 2
  let oh := 3 * s.canvasHeight / 2
  let hq :=
    if s.isInteracting then s.highQuality
    else { s.highQuality with maxIterations := adaptiveMaxIterations s.viewport.zoom }
  let quality := if s.isInteracting then s.lowQuality else hq
  ({ s with
      currentRequestId := rid
      overscanWidth := ow
      overscanHeight := oh
      overscanViewport := some s.viewport
      highQuality := hq
      iterationDataWidth := ow
      iterationDataHeight := oh },
   [.cancel (rid - 1),
    .render
      { canvasWidth := ow, canvasHeight := oh, viewport := s.viewport,
        params := s.params, quality := quality, requestId := rid,
        storeIterations := true }])

/-- renderer.ts `needsRerender` (lines 205-222): re-render when the zoom
moved by more than 1 % or either centre coordinate moved by more than 20 %
of the visible scale `4 / zoom` since the overscan buffer was rendered. -/
def needsRerender (s : RState) : Prop :=
  match s.overscanViewport with
  | none => True
  | some ov =>
    |s.viewport.zoom - ov.zoom| > s.viewport.zoom * 0.01 ∨
    |s.viewport.centerX - ov.centerX| > 4 / s.viewport.zoom * 0.2 ∨
    |s.viewport.centerY - ov.centerY| > 4 / s.viewport.zoom * 0.2

/-- The viewport after `pan(dx, dy)` moves the centre (renderer.ts lines
182-185). -/
noncomputable def panViewport (dx dy : ℝ) (s : RState) : Viewport :=
  { s.viewport with
      centerX := s.viewport.centerX -
        dx / s.canvasWidth * (4 / s.viewport.zoom) * ((s.canvasWidth : ℝ) / s.canvasHeight)
      centerY := s.viewport.centerY + dy / s.canvasHeight * (4 / s.viewport.zoom) }

/-- renderer.ts `pan` (lines 181-200): move the centre, then render when
interacting; otherwise render only if `needsRerender` holds, else just
re-crop the overscan buffer onto the visible canvas (`updateMainCanvas`,
which posts nothing and changes no modelled state). -/
noncomputable def panStep (dx dy : ℝ) (s : RState) : RState × List WorkerRequest :=
  let s1 := { s with viewport := panViewport dx dy s }
  if s1.isInteracting then renderStep s1
  else if needsRerender s1 then renderStep s1
  else (s1, [])

/-- renderer.ts `zoom` (lines 227-262): reject zooms beyond the limits
`[0.5, 1e12]`, otherwise scale about the mouse point (when given) and
render. -/
noncomputable def zoomStep (factor : ℝ) (mouse : Option (ℝ × ℝ)) (s : RState) :
    RState × List WorkerRequest :=
  let newZoom := s.viewport.zoom * factor
  if newZoom < 0.5 ∨ newZoom > 1e12 then (s, [])
  else
    match mouse with
    | some (mouseX, mouseY) =>
      let scale := 4 / s.viewport.zoom
      let aspect := (s.canvasWidth : ℝ) / s.canvasHeight
      let mouseXNorm := mouseX / s.canvasWidth - 0.5
      let mouseYNorm := 0.5 - mouseY / s.canvasHeight
      let worldX := s.viewport.centerX + mouseXNorm * scale * aspect
      let worldY := s.viewport.centerY + mouseYNorm * scale
      let newScale := 4 / newZoom
      renderStep
        { s with viewport :=
          { centerX := worldX - mouseXNorm * newScale * aspect
            centerY := worldY - mouseYNorm * newScale
            zoom := newZoom } }
    | none => renderStep { s with viewport := { s.viewport with zoom := newZoom } }

/-- renderer.ts `recolor` (lines 284-329): with iteration data present at
matching dimensions, recompute the overscan pixels from it via
`recolorPixel` (pixel buffers are not part of the modelled state) and post
nothing; otherwise fall back to a full render. -/
noncomputable def recolorStep (s : RState) : RState × List WorkerRequest :=
  match s.iterationData with
  | none => renderStep s
  | some _ =>
    if s.iterationDataWidth ≠ s.overscanWidth ∨ s.iterationDataHeight ≠ s.overscanHeight then
      renderStep s
    else (s, [])

/-- renderer.ts `updateParams` (lines 267-279) for a partial update whose
only key is `colorHue`: merge the new hue, then fast-recolor when
iteration data exists, else full render. -/
noncomputable def updateParamsHue (hue : ℝ) (s : RState) : RState × List WorkerRequest :=
  let s1 := { s with params := { s.params with colorHue := hue } }
  if s1.iterationData ≠ none then recolorStep s1 else renderStep s1

/-- renderer.ts `updateParams` for any partial update with other keys
(such as the full parameter object the page always passes): merge and full
render. -/
noncomputable def updateParamsFull (p : FractalParams) (s : RState) : RState × List WorkerRequest :=
  renderStep { s with params := p }

/-- renderer.ts `saveToBackground` (lines 111-120). -/
def saveToBackground (s : RState) : RState :=
  if s.overscanWidth = 0 ∨ s.overscanHeight = 0 then s
  else
    { s with
        backgroundWidth := s.overscanWidth
        backgroundHeight := s.overscanHeight
        backgroundViewport := s.overscanViewport }

/-- The worker-message handler installed by `setupWorker` (renderer.ts
lines 83-106): drop stale responses, blit the tile and re-crop (pixels not
modelled), and snapshot the background on a completed non-interactive
render.  It never touches `iterationData`. -/
noncomputable def tileMessageStep (resp : TileResponse) (s : RState) : RState × List WorkerRequest :=
  if resp.requestId ≠ s.currentRequestId then (s, [])
  else if resp.isComplete = true ∧ s.isInteracting = false then (saveToBackground s, [])
  else (s, [])

/-- renderer.ts `startInteraction` (lines 157-163). -/
def startInteractionStep (s : RState) : RState × List WorkerRequest :=
  ({ s with isInteracting := true }, [])

/-- renderer.ts `endInteraction` (lines 168-176). -/
noncomputable def endInteractionStep (s : RState) : RState × List WorkerRequest :=
  renderStep { s with isInteracting := false }

/-- renderer.ts `resize` (lines 143-152). -/
noncomputable def resizeStep (w h : ℕ) (s : RState) : RState × List WorkerRequest :=
  renderStep { s with canvasWidth := w, canvasHeight := h }

/-- renderer.ts `setResolution` (lines 485-500); the multiplier is positive
(the page's slider range is 0.5 – 2.0), so the floors are non-negative. -/
noncomputable def setResolutionStep (m : ℝ) (s : RState) : RState × List WorkerRequest :=
  let s1 :=
    { s with
        resolutionMultiplier := m
        highQuality :=
          { s.highQuality with
              maxIterations := (⌊(256 : ℝ) * m⌋).toNat
              tileSize := max 16 (⌊(32 : ℝ) / m⌋).toNat }
        lowQuality :=
          { s.lowQuality with
              maxIterations := (⌊(64 : ℝ) * m⌋).toNat
              tileSize := max 32 (⌊(64 : ℝ) / m⌋).toNat } }
  if s1.isInteracting = false then renderStep s1 else (s1, [])

/-- renderer.ts `storeIterationData` (lines 478-480): the only writer of
`iterationData`.  Nothing in the repository calls it. -/
def storeIterationDataStep (data : List ℝ) (s : RState) : RState × List WorkerRequest :=
  ({ s with iterationData := some data }, [])

/-- An invocation of one of the renderer's entry points: the public API
called by the page, plus delivery of a worker message. -/
inductive RendererOp
  | render
  | resize (w h : ℕ)
  | pan (dx dy : ℝ)
  | zoomBy (factor : ℝ) (mouse : Option (ℝ × ℝ))
  | updateHue (hue : ℝ)
  | updateFull (p : FractalParams)
  | setResolution (m : ℝ)
  | startInteraction
  | endInteraction
  | tileMessage (resp : TileResponse)
  | storeIterations (data : List ℝ)

/-- Dispatch an operation to its model. -/
noncomputable def applyOp (op : RendererOp) (s : RState) : RState × List WorkerRequest :=
  match op with
  | .render => renderStep s
  | .resize w h => resizeStep w h s
  | .pan dx dy => panStep dx dy s
  | .zoomBy f mouse => zoomStep f mouse s
  | .updateHue hue => updateParamsHue hue s
  | .updateFull p => updateParamsFull p s
  | .setResolution m => setResolutionStep m s
  | .startInteraction => startInteractionStep s
  | .endInteraction => endInteractionStep s
  | .tileMessage resp => tileMessageStep resp s
  | .storeIterations data => storeIterationDataStep data s

/-- Run a sequence of renderer operations, keeping the final state. -/
noncomputable def runOps (s : RState) : List RendererOp → RState
  | [] => s
  | op :: ops => runOps (applyOp op s).1 ops

/-- `op` is an external `storeIterationData` invocation. -/
def isStoreOp : RendererOp → Prop
  | .storeIterations _ => True
  | _ => False

/-! ## Iteration-engine lemmas -/

/-- Points with `|c|² > 4` lie outside the main-cardioid test region. -/
lemma not_isInCardioid_of_escaped (x y : ℝ) (h : 4 < x * x + y * y) :
    ¬ isInCardioid x y := by
  intro contra
  unfold isInCardioid at contra
  have hq0 : (0 : ℝ) ≤ (x - 0.25) * (x - 0.25) + y * y := by
    nlinarith [mul_self_nonneg (x - 0.25), mul_self_nonneg y]
  have hyq : y * y ≤ (x - 0.25) * (x - 0.25) + y * y := by nlinarith [sq_nonneg (x - 0.25)]
  have hqpos : (0 : ℝ) < (x - 0.25) * (x - 0.25) + y * y := by
    rcases lt_or_eq_of_le hq0 with hlt | heq
    · exact hlt
    · exfalso
      have hx : x = 0.25 ∧ y = 0 := by
        constructor <;> nlinarith [sq_nonneg (x - 0.25), sq_nonneg y]
      rw [hx.1, hx.2] at h
      norm_num at h
  have h2 : ((x - 0.25) * (x - 0.25) + y * y) + (x - 0.25) < 0.25 := by
    nlinarith
  have h3 : x * x + y * y < 1 := by
    nlinarith [sq_nonneg (x + 1)]
  linarith

/-- Points with `|c|² > 4` lie outside the period-2-bulb test region. -/
lemma not_isInPeriod2Bulb_of_escaped (x y : ℝ) (h : 4 < x * x + y * y) :
    ¬ isInPeriod2Bulb x y := by
  intro contra
  unfold isInPeriod2Bulb at contra
  nlinarith [sq_nonneg (x + 2)]

/-- In Mandelbrot mode at a point passing neither interior test,
`computePixel` runs the iteration loop on `c = (x0, y0)`,
`z = (realZ0, imagZ0)`. -/
lemma computePixel_mandelbrot (x0 y0 : ℝ) (p : FractalParams) (maxIterations : ℕ)
    (h1 : ¬ isInCardioid x0 y0) (h2 : ¬ isInPeriod2Bulb x0 y0) :
    computePixel x0 y0 p maxIterations False =
      iterateZ p x0 y0 maxIterations 0 p.realZ0 p.imagZ0 := by
  unfold computePixel
  rw [if_neg (by rintro ⟨-, hc⟩; exact hc.elim h1 h2)]
  simp only [if_neg not_false]

/-- Unfolding `iterateZ` at the escape check. -/
lemma iterateZ_escape (p : FractalParams) (cr ci : ℝ) (fuel iter : ℕ) (zr zi : ℝ)
    (h : 4 < zr * zr + zi * zi) :
    iterateZ p cr ci (fuel + 1) iter zr zi = smoothEscape iter (zr * zr + zi * zi) := by
  simp only [iterateZ]
  rw [if_pos h]

/-- Unfolding `iterateZ` along the optimized `exponent = 2` path. -/
lemma iterateZ_step_sq (p : FractalParams) (cr ci : ℝ) (fuel iter : ℕ) (zr zi : ℝ)
    (hesc : ¬ (4 < zr * zr + zi * zi)) (he : p.exponent = 2) (hi : p.imagExponent = 0) :
    iterateZ p cr ci (fuel + 1) iter zr zi =
      iterateZ p cr ci fuel (iter + 1) (zr * zr - zi * zi + cr) (2 * zr * zi + ci) := by
  simp only [iterateZ]
  rw [if_neg hesc, if_pos ⟨he, hi⟩]

/-- Starting from `z = 0` with squaring recurrence and `|c|² > 4`, the loop
escapes at iteration 1 with the smooth value of `|c|²`, for any remaining
fuel. -/
lemma iterateZ_from_zero_escapes (p : FractalParams) (x0 y0 : ℝ) (k : ℕ)
    (he : p.exponent = 2) (hi : p.imagExponent = 0) (hesc : 4 < x0 * x0 + y0 * y0) :
    iterateZ p x0 y0 (k + 2) 0 0 0 = smoothEscape 1 (x0 * x0 + y0 * y0) := by
  have h0 : ¬ ((4 : ℝ) < 0 * 0 + 0 * 0) := by norm_num
  rw [show k + 2 = k + 1 + 1 from rfl,
    iterateZ_step_sq p x0 y0 (k + 1) 0 0 0 h0 he hi,
    show (0 : ℝ) * 0 - 0 * 0 + x0 = x0 by ring,
    show 2 * (0 : ℝ) * 0 + y0 = y0 by ring,
    iterateZ_escape p x0 y0 k 1 x0 y0 hesc]

/-- Bounds for the smooth escape value at iteration 1. -/
lemma smoothEscape_one_bounds (z2 : ℝ) (hlo : 4 < z2) :
    smoothEscape 1 z2 < 2 ∧ (z2 ≤ 256 → 0 ≤ smoothEscape 1 z2) := by
  have hL : (0 : ℝ) < Real.log 2 := Real.log_pos (by norm_num)
  have hy : Real.log z2 / 2 / Real.log 2 = Real.log z2 / (2 * Real.log 2) := by
    rw [div_div]
  have hlog4 : Real.log 4 = 2 * Real.log 2 := by
    rw [show (4 : ℝ) = 2 ^ 2 by norm_num, Real.log_pow]
    push_cast; ring
  have hygt : 1 < Real.log z2 / (2 * Real.log 2) := by
    rw [lt_div_iff (by positivity), one_mul, ← hlog4]
    exact Real.log_lt_log (by norm_num) hlo
  constructor
  · have hnu : 0 < Real.log (Real.log z2 / 2 / Real.log 2) / Real.log 2 := by
      apply div_pos _ hL
      rw [hy]
      exact Real.log_pos hygt
    unfold smoothEscape
    push_cast
    linarith
  · intro hhi
    have hlog256 : Real.log 256 = 8 * Real.log 2 := by
      rw [show (256 : ℝ) = 2 ^ 8 by norm_num, Real.log_pow]
      push_cast; ring
    have hyle : Real.log z2 / (2 * Real.log 2) ≤ 4 := by
      rw [div_le_iff (by positivity)]
      calc Real.log z2 ≤ Real.log 256 := by
            apply Real.log_le_log (by linarith) hhi
        _ = 4 * (2 * Real.log 2) := by rw [hlog256]; ring
    have hnu : Real.log (Real.log z2 / 2 / Real.log 2) / Real.log 2 ≤ 2 := by
      rw [div_le_iff hL, hy]
      calc Real.log (Real.log z2 / (2 * Real.log 2)) ≤ Real.log 4 :=
            Real.log_le_log (by linarith) hyle
        _ = 2 * Real.log 2 := hlog4
    unfold smoothEscape
    push_cast
    linarith

/-- Mandelbrot-mode parameters with `z0 = 0`, `c`-seed `0`, exponent `2`,
hue `0`, used as concrete inputs below. -/
def defaultParams : FractalParams := ⟨0, 0, 0, 0, 2, 0, 0⟩

/-- C2 counterexample: at the Mandelbrot point `c = (256, 0)` — where
`|c| = 256 > 2` — the smooth escape value `2 - log2 (log2 (|c|²) / 2)`
equals exactly `-1`, so `computePixel` returns the inside sentinel for an
escaping point, contradicting the claim that points with `|c| > 2` never
yield the sentinel. -/
theorem computePixel_escape_sentinel_collision :
    4 < (256 : ℝ) * 256 + 0 * 0 ∧
      computePixel 256 0 defaultParams 10 False = -1 := by
  refine ⟨by norm_num, ?_⟩
  have h1 : ¬ isInCardioid 256 0 := not_isInCardioid_of_escaped 256 0 (by norm_num)
  have h2 : ¬ isInPeriod2Bulb 256 0 := not_isInPeriod2Bulb_of_escaped 256 0 (by norm_num)
  rw [computePixel_mandelbrot 256 0 defaultParams 10 h1 h2]
  show iterateZ defaultParams 256 0 10 0 0 0 = -1
  rw [show (10 : ℕ) = 8 + 2 from rfl,
    iterateZ_from_zero_escapes defaultParams 256 0 8 rfl rfl (by norm_num)]
  unfold smoothEscape
  have hL : Real.log 2 ≠ 0 := ne_of_gt (Real.log_pos (by norm_num))
  rw [show (256 : ℝ) * 256 + 0 * 0 = 2 ^ 16 by norm_num, Real.log_pow,
    show ((16 : ℕ) : ℝ) * Real.log 2 / 2 / Real.log 2 = 8 by field_simp; ring,
    show (8 : ℝ) = 2 ^ 3 by norm_num, Real.log_pow, mul_div_assoc, div_self hL]
  push_cast
  ring

/-- C2 (amended): in Mandelbrot mode with trivial `z0 = (0,0)`, exponent
`2 + 0i`, `maxIterations ≥ 2` and `4 < |c|² ≤ 256`, `computePixel` escapes
at iteration 1 with the finite smooth value `2 - log2 (log2 (|c|²) / 2)`,
which lies in `[0, maxIterations + 1)` and is not the inside sentinel.
(The original claim fails for `|c|² = 2^16`, where the smooth value is
exactly `-1`, for very large `|c|` where it is negative, and for
`maxIterations < 2`, where the loop returns `-1` before the escape
check.) -/
theorem computePixel_escape_of_large_c (x0 y0 : ℝ) (p : FractalParams) (maxIterations : ℕ)
    (hz0r : p.realZ0 = 0) (hz0i : p.imagZ0 = 0)
    (he : p.exponent = 2) (hi : p.imagExponent = 0)
    (hmi : 2 ≤ maxIterations)
    (hlo : 4 < x0 * x0 + y0 * y0) (hhi : x0 * x0 + y0 * y0 ≤ 256) :
    computePixel x0 y0 p maxIterations False = smoothEscape 1 (x0 * x0 + y0 * y0) ∧
      0 ≤ smoothEscape 1 (x0 * x0 + y0 * y0) ∧
      smoothEscape 1 (x0 * x0 + y0 * y0) < (maxIterations : ℝ) + 1 ∧
      smoothEscape 1 (x0 * x0 + y0 * y0) ≠ -1 := by
  obtain ⟨k, hk⟩ : ∃ k, maxIterations = k + 2 := ⟨maxIterations - 2, by omega⟩
  have hval := smoothEscape_one_bounds (x0 * x0 + y0 * y0) hlo
  have h0 := hval.2 hhi
  refine ⟨?_, h0, ?_, ?_⟩
  · rw [computePixel_mandelbrot x0 y0 p maxIterations
      (not_isInCardioid_of_escaped x0 y0 hlo) (not_isInPeriod2Bulb_of_escaped x0 y0 hlo),
      hz0r, hz0i, hk]
    exact iterateZ_from_zero_escapes p x0 y0 k he hi hlo
  · have hc : (2 : ℝ) ≤ (maxIterations : ℝ) := by exact_mod_cast hmi
    linarith [hval.1]
  · intro hcontra
    rw [hcontra] at h0
    norm_num at h0

/-- C2 witness: the amended theorem applied at `c = (3, 0)`,
`maxIterations = 2`. -/
theorem computePixel_escape_of_large_c_witness :
    computePixel 3 0 defaultParams 2 False = smoothEscape 1 ((3 : ℝ) * 3 + 0 * 0) ∧
      0 ≤ smoothEscape 1 ((3 : ℝ) * 3 + 0 * 0) ∧
      smoothEscape 1 ((3 : ℝ) * 3 + 0 * 0) < ((2 : ℕ) : ℝ) + 1 ∧
      smoothEscape 1 ((3 : ℝ) * 3 + 0 * 0) ≠ -1 :=
  computePixel_escape_of_large_c 3 0 defaultParams 2 rfl rfl rfl rfl
    (by norm_num) (by norm_num) (by norm_num)

/-- C4: points inside the main-cardioid or period-2-bulb test regions give
exactly `-1` in Mandelbrot mode, for every `maxIterations` and every
parameter record, via the interior shortcut. -/
theorem computePixel_interior_shortcut (x0 y0 : ℝ) (p : FractalParams) (maxIterations : ℕ)
    (h : isInCardioid x0 y0 ∨ isInPeriod2Bulb x0 y0) :
    computePixel x0 y0 p maxIterations False = -1 := by
  unfold computePixel
  rw [if_pos ⟨not_false, h⟩]

/-- C4 witness: the origin lies in the cardioid test region and computes
to `-1`. -/
theorem computePixel_interior_shortcut_witness :
    (isInCardioid 0 0 ∨ isInPeriod2Bulb 0 0) ∧
      computePixel 0 0 defaultParams 5 False = -1 := by
  have hc : isInCardioid 0 0 := by
    unfold isInCardioid
    norm_num
  exact ⟨Or.inl hc, computePixel_interior_shortcut 0 0 defaultParams 5 (Or.inl hc)⟩

/-! ## Colour-pipeline evaluations (fast recolor vs. full recompute) -/

/-- Evaluation rule for `jsFmod` at non-negative arguments with known
quotient. -/
lemma jsFmod_eval (x y : ℝ) (k : ℤ) (hy : 0 < y) (hx : 0 ≤ x)
    (h1 : y * k ≤ x) (h2 : x < y * (k + 1)) : jsFmod x y = x - y * k := by
  unfold jsFmod
  rw [if_pos (div_nonneg hx hy.le)]
  have hfl : ⌊x / y⌋ = k := by
    rw [Int.floor_eq_iff]
    constructor
    · rw [le_div_iff hy]
      linarith
    · rw [div_lt_iff hy]
      linarith
  rw [hfl]


/-- `hsvToRgb` at hue 180 (the 180°–240° sector), saturation 0.85,
value 0.75. -/
lemma hsvToRgb_at_180 : hsvToRgb 180 0.85 0.75 = (29, 191, 191) := by
  have hf : jsFmod ((180 : ℝ) / 60) 2 = 1 := by
    rw [show ((180 : ℝ) / 60) = 3 by norm_num,
      jsFmod_eval 3 2 1 (by norm_num) (by norm_num) (by norm_num) (by norm_num)]
    norm_num
  simp only [hsvToRgb, hf]
  norm_num [jsRound]

/-- `hsvToRgb` at hue 0 (the 0°–60° sector), saturation 0.85, value 1. -/
lemma hsvToRgb_at_0 : hsvToRgb 0 0.85 1 = (255, 38, 38) := by
  have hf : jsFmod ((0 : ℝ) / 60) 2 = 0 := by
    rw [show ((0 : ℝ) / 60) = 0 by norm_num,
      jsFmod_eval 0 2 0 (by norm_num) (by norm_num) (by norm_num) (by norm_num)]
    norm_num
  simp only [hsvToRgb, hf]
  norm_num [jsRound]

/-- A full recompute of a pixel with stored smooth value 64, hue 0, at the
quality that produced the cache (`maxIterations = 256`):
`t = √(64/256) = 1/2`, hue 180, value 0.75. -/
lemma colorPixel_cache_quality : colorPixel 0 256 64 = (29, 191, 191, 255) := by
  have ht : Real.sqrt ((64 : ℝ) / ((256 : ℕ) : ℝ)) = 1 / 2 := by
    rw [show (64 : ℝ) / ((256 : ℕ) : ℝ) = (1 / 2) ^ 2 by norm_num]
    exact Real.sqrt_sq (by norm_num)
  have hh : jsFmod ((0 : ℝ) + 1 / 2 * 360) 360 = 180 := by
    rw [show ((0 : ℝ) + 1 / 2 * 360) = 180 by norm_num,
      jsFmod_eval 180 360 0 (by norm_num) (by norm_num) (by norm_num) (by norm_num)]
    norm_num
  simp only [colorPixel]
  rw [if_neg (by norm_num : ¬ ((64 : ℝ) < 0)), ht, hh,
    show (0.5 : ℝ) + 1 / 2 * 0.5 = 0.75 by norm_num, hsvToRgb_at_180]

/-- The fast-recolor path at the same stored smooth value 64 and hue 0
while interacting hard-codes `maxIterations = 64`: `t = √(64/64) = 1`,
hue 0, value 1 — a different colour. -/
lemma recolorPixel_interacting : recolorPixel true 0 64 = (255, 38, 38, 255) := by
  have ht : Real.sqrt ((64 : ℝ) / ((64 : ℕ) : ℝ)) = 1 := by
    rw [show (64 : ℝ) / ((64 : ℕ) : ℝ) = 1 by norm_num]
    exact Real.sqrt_one
  have hh : jsFmod ((0 : ℝ) + 1 * 360) 360 = 0 := by
    rw [show ((0 : ℝ) + 1 * 360) = 360 by norm_num,
      jsFmod_eval 360 360 1 (by norm_num) (by norm_num) (by norm_num) (by norm_num)]
    norm_num
  simp only [recolorPixel]
  rw [if_neg (by norm_num : ¬ ((64 : ℝ) < 0))]
  simp only [if_true, ite_true, Bool.true_eq]
  rw [ht, hh, show (0.5 : ℝ) + 1 * 0.5 = 1 by norm_num, hsvToRgb_at_0]

/-- C1 (code bug): for a cached pixel with stored smooth-iteration value
64 produced by a render whose quality profile had `maxIterations = 256`
(for example the interactive profile after `setResolution(4)`), recolouring
to hue 0 while interacting yields RGBA `(255, 38, 38, 255)`, while a full
recompute of the same stored value with the same hue under the cache's
quality profile yields `(29, 191, 191, 255)` — the fast-recolor path is
not pixel-identical because `recolor` hard-codes `maxIterations` to
`isInteracting ? 64 : 256` instead of the `maxIterations` actually used by
the render that produced the cache. -/
theorem recolorPixel_ne_full_recompute :
    recolorPixel true 0 64 = (255, 38, 38, 255) ∧
      colorPixel 0 256 64 = (29, 191, 191, 255) ∧
      recolorPixel true 0 64 ≠ colorPixel 0 256 64 := by
  refine ⟨recolorPixel_interacting, colorPixel_cache_quality, ?_⟩
  rw [recolorPixel_interacting, colorPixel_cache_quality]
  decide

/-! ## Pan cheap-path (C3) -/

/-- `needsRerender` spelt out when an overscan viewport exists. -/
lemma needsRerender_iff (s : RState) (ov : Viewport) (hov : s.overscanViewport = some ov) :
    needsRerender s ↔
      (|s.viewport.zoom - ov.zoom| > s.viewport.zoom * 0.01 ∨
        |s.viewport.centerX - ov.centerX| > 4 / s.viewport.zoom * 0.2 ∨
        |s.viewport.centerY - ov.centerY| > 4 / s.viewport.zoom * 0.2) := by
  unfold needsRerender
  rw [hov]

/-- C3 (amended): outside interactive mode, a pan that keeps the zoom
within 1 % of the overscan buffer's tagged zoom and both centre
coordinates within 20 % of the visible scale posts no worker message at
all and leaves the request counter unchanged — the compositor only
re-crops the overscan buffer.  (The original claim fails while
`isInteracting` is set, where `pan` unconditionally re-renders.) -/
theorem pan_cheap_path (s : RState) (dx dy : ℝ) (ov : Viewport)
    (hint : s.isInteracting = false)
    (hov : s.overscanViewport = some ov)
    (hzoom : |s.viewport.zoom - ov.zoom| ≤ s.viewport.zoom * 0.01)
    (hcx : |(panViewport dx dy s).centerX - ov.centerX| ≤ 4 / s.viewport.zoom * 0.2)
    (hcy : |(panViewport dx dy s).centerY - ov.centerY| ≤ 4 / s.viewport.zoom * 0.2) :
    (panStep dx dy s).2 = [] ∧
      (panStep dx dy s).1.currentRequestId = s.currentRequestId := by
  have hov1 : ({ s with viewport := panViewport dx dy s } : RState).overscanViewport = some ov :=
    hov
  have hnr : ¬ needsRerender { s with viewport := panViewport dx dy s } := by
    rw [needsRerender_iff _ ov hov1]
    push_neg
    exact ⟨hzoom, hcx, hcy⟩
  simp only [panStep]
  rw [if_neg (by simp [hint]), if_neg hnr]
  exact ⟨rfl, rfl⟩

/-- A concrete interacting renderer state whose current viewport coincides
with the overscan buffer's tagged viewport. -/
def panCounterState : RState :=
  { initState 100 100 ⟨0, 0, 1⟩ defaultParams with
      isInteracting := true
      overscanViewport := some ⟨0, 0, 1⟩ }

/-- C3 counterexample: while interacting, a pan by `(0, 0)` — zoom
unchanged, hence within 1 % of the overscan zoom, and translation zero,
hence within 20 % of the visible scale — still posts messages (a cancel
and a render request) and bumps the request counter: `pan` re-renders
unconditionally during interaction, taking the cheap path only outside
interactive mode. -/
theorem pan_interacting_rerenders :
    panCounterState.overscanViewport = some ⟨0, 0, 1⟩ ∧
      |(panStep 0 0 panCounterState).1.viewport.zoom - (1 : ℝ)| ≤ (1 : ℝ) * 0.01 ∧
      |(panStep 0 0 panCounterState).1.viewport.centerX - 0| ≤ 4 / (1 : ℝ) * 0.2 ∧
      |(panStep 0 0 panCounterState).1.viewport.centerY - 0| ≤ 4 / (1 : ℝ) * 0.2 ∧
      (panStep 0 0 panCounterState).2 ≠ [] ∧
      (panStep 0 0 panCounterState).1.currentRequestId ≠ panCounterState.currentRequestId := by
  have hpan : panStep 0 0 panCounterState =
      renderStep { panCounterState with viewport := panViewport 0 0 panCounterState } := by
    simp only [panStep]
    rw [if_pos (show panCounterState.isInteracting = true from rfl)]
  refine ⟨rfl, ?_, ?_, ?_, ?_, ?_⟩
  · rw [hpan]
    simp only [renderStep, panViewport, panCounterState, initState]
    norm_num
  · rw [hpan]
    simp only [renderStep, panViewport, panCounterState, initState]
    norm_num
  · rw [hpan]
    simp only [renderStep, panViewport, panCounterState, initState]
    norm_num
  · rw [hpan]
    simp only [renderStep]
    simp
  · rw [hpan]
    simp only [renderStep, panCounterState, initState]
    decide

/-- A concrete non-interacting renderer state whose current viewport
coincides with the overscan buffer's tagged viewport. -/
def panWitnessState : RState :=
  { initState 100 100 ⟨0, 0, 1⟩ defaultParams with overscanViewport := some ⟨0, 0, 1⟩ }

/-- C3 witness: the amended theorem applied to a concrete non-interacting
state and a zero pan. -/
theorem pan_cheap_path_witness :
    (panStep 0 0 panWitnessState).2 = [] ∧
      (panStep 0 0 panWitnessState).1.currentRequestId = panWitnessState.currentRequestId := by
  apply pan_cheap_path panWitnessState 0 0 ⟨0, 0, 1⟩ rfl rfl
  · show |(1 : ℝ) - 1| ≤ 1 * 0.01
    norm_num
  · show |(0 : ℝ) - 0 / 100 * (4 / 1) * (100 / 100) - 0| ≤ 4 / 1 * 0.2
    norm_num
  · show |(0 : ℝ) + 0 / 100 * (4 / 1) - 0| ≤ 4 / 1 * 0.2
    norm_num

/-! ## Tile-grid lemmas (C5) -/

/-- `mkTiles` grows row by row. -/
lemma mkTiles_succ (X Y : ℕ) :
    mkTiles X (Y + 1) = mkTiles X Y ++ (List.range X).map (fun tx => (tx, Y)) := by
  unfold mkTiles
  rw [show Y + 1 = Y.succ from rfl, List.range_succ, List.flatMap_append]
  simp

lemma mkTiles_length (X Y : ℕ) : (mkTiles X Y).length = Y * X := by
  induction Y with
  | zero => simp [mkTiles]
  | succ n ih =>
    rw [mkTiles_succ, List.length_append, ih]
    simp [Nat.succ_mul]

lemma mem_mkTiles (X Y : ℕ) (t : ℕ × ℕ) : t ∈ mkTiles X Y ↔ t.1 < X ∧ t.2 < Y := by
  obtain ⟨tx, ty⟩ := t
  unfold mkTiles
  simp only [List.mem_flatMap, List.mem_map, List.mem_range, Prod.mk.injEq]
  constructor
  · rintro ⟨a, ha, b, hb, rfl, rfl⟩
    exact ⟨hb, ha⟩
  · rintro ⟨h1, h2⟩
    exact ⟨ty, h2, tx, h1, rfl, rfl⟩

lemma mkTiles_nodup (X Y : ℕ) : (mkTiles X Y).Nodup := by
  induction Y with
  | zero => simp [mkTiles]
  | succ n ih =>
    rw [mkTiles_succ]
    refine List.Nodup.append ih ?_ ?_
    · exact (List.nodup_range X).map (fun a b hab => (Prod.mk.injEq ..).mp hab |>.1)
    · intro t ht1 ht2
      rw [mem_mkTiles] at ht1
      simp only [List.mem_map, List.mem_range] at ht2
      obtain ⟨tx, -, rfl⟩ := ht2
      exact absurd ht1.2 (lt_irrefl n)

/-- A pixel index below the canvas width lands in a grid column below
`tilesAcross`. -/
lemma div_lt_tilesAcross (w ts px : ℕ) (hts : 0 < ts) (hpx : px < w) :
    px / ts < tilesAcross w ts := by
  unfold tilesAcross
  have h1 : w + ts - 1 = (w - 1) + ts := by omega
  rw [h1, Nat.add_div_right _ hts]
  have h2 : px / ts ≤ (w - 1) / ts := Nat.div_le_div_right (by omega)
  omega

/-- A grid column below `tilesAcross` starts strictly inside the canvas. -/
lemma tile_start_lt (w ts tx : ℕ) (hts : 0 < ts) (hw : 0 < w)
    (htx : tx < tilesAcross w ts) : tx * ts < w := by
  unfold tilesAcross at htx
  have h1 : w + ts - 1 = (w - 1) + ts := by omega
  rw [h1, Nat.add_div_right _ hts] at htx
  have h2 : tx ≤ (w - 1) / ts := by omega
  have h3 : tx * ts ≤ (w - 1) / ts * ts := Nat.mul_le_mul_right ts h2
  have h4 : (w - 1) / ts * ts ≤ w - 1 := Nat.div_mul_le_self _ _
  omega

/-- One-dimensional covering: a column tile covers pixel `px` exactly when
it is column `px / ts`. -/
lemma tile_covers_iff (w ts px tx : ℕ) (hts : 0 < ts) (hw : 0 < w) (hpx : px < w)
    (htx : tx < tilesAcross w ts) :
    (tx * ts ≤ px ∧ px < tx * ts + min ts (w - tx * ts)) ↔ tx = px / ts := by
  have hb : tx * ts < w := tile_start_lt w ts tx hts hw htx
  constructor
  · rintro ⟨h1, h2⟩
    have h2' : px < (tx + 1) * ts := by
      have hmin : min ts (w - tx * ts) ≤ ts := min_le_left _ _
      have hs : (tx + 1) * ts = tx * ts + ts := by ring
      omega
    exact (Nat.div_eq_of_lt_le h1 h2').symm
  · rintro rfl
    have h1 : px / ts * ts ≤ px := Nat.div_mul_le_self px ts
    have h2 : ts * (px / ts) + px % ts = px := Nat.div_add_mod px ts
    have h3 : px % ts < ts := Nat.mod_lt px hts
    have h4 : ts * (px / ts) = px / ts * ts := Nat.mul_comm _ _
    refine ⟨h1, ?_⟩
    generalize hA : px / ts * ts = A at *
    omega

/-- For nodup lists, filtering by equality with a member yields exactly
that member. -/
lemma filter_eq_singleton_of_nodup {α : Type} [DecidableEq α] (l : List α)
    (hnd : l.Nodup) (a : α) (ha : a ∈ l) :
    l.filter (fun b => decide (b = a)) = [a] := by
  induction l with
  | nil => cases ha
  | cons x xs ih =>
    rw [List.filter_cons]
    rcases List.nodup_cons.mp hnd with ⟨hx, hxs⟩
    by_cases hxa : x = a
    · subst hxa
      rw [if_pos (by simp)]
      have hnil : xs.filter (fun b => decide (b = x)) = [] := by
        rw [List.filter_eq_nil_iff]
        intro b hb
        simp only [decide_eq_true_eq]
        rintro rfl
        exact hx hb
      rw [hnil]
    · rw [if_neg (by simp [hxa])]
      have ha' : a ∈ xs := by
        rcases List.mem_cons.mp ha with h | h
        · exact absurd h.symm hxa
        · exact h
      exact ih hxs ha'

/-- The tile rectangles covering pixel `(px, py)`, in generation order. -/
def coveringRects (w h ts px py : ℕ) : List PixelRect :=
  (tileRects w h ts).filter (fun r => decide (rectContains r px py))

/-- C5: for every positive canvas and tile size, the generated tile
rectangles form an exact partition of the canvas: there are
`⌈w/ts⌉ * ⌈h/ts⌉` of them, every canvas pixel is covered by exactly the
tile of its own grid cell, and every tile lies inside the canvas and is
non-empty. -/
theorem tileRects_partition (w h ts : ℕ) (hw : 0 < w) (hh : 0 < h) (hts : 0 < ts) :
    (tileRects w h ts).length = tilesAcross w ts * tilesAcross h ts ∧
      (∀ px py, px < w → py < h →
        coveringRects w h ts px py = [tileRect w h ts (px / ts, py / ts)]) ∧
      (∀ r ∈ tileRects w h ts,
        r.x + r.width ≤ w ∧ r.y + r.height ≤ h ∧ 0 < r.width ∧ 0 < r.height) := by
  refine ⟨?_, ?_, ?_⟩
  · unfold tileRects
    rw [List.length_map, mkTiles_length]
    exact Nat.mul_comm _ _
  · intro px py hpx hpy
    unfold coveringRects tileRects
    rw [List.filter_map]
    have hcong : (mkTiles (tilesAcross w ts) (tilesAcross h ts)).filter
          ((fun r => decide (rectContains r px py)) ∘ tileRect w h ts) =
        (mkTiles (tilesAcross w ts) (tilesAcross h ts)).filter
          (fun t => decide (t = (px / ts, py / ts))) := by
      apply List.filter_congr
      intro t ht
      rw [mem_mkTiles] at ht
      simp only [Function.comp_apply, decide_eq_decide]
      unfold rectContains tileRect
      simp only
      constructor
      · rintro ⟨h1, h2, h3, h4⟩
        have e1 := (tile_covers_iff w ts px t.1 hts hw hpx ht.1).mp ⟨h1, h2⟩
        have e2 := (tile_covers_iff h ts py t.2 hts hh hpy ht.2).mp ⟨h3, h4⟩
        exact Prod.ext e1 e2
      · rintro rfl
        refine ⟨?_, ?_, ?_, ?_⟩
        · exact ((tile_covers_iff w ts px _ hts hw hpx (div_lt_tilesAcross w ts px hts hpx)).mpr rfl).1
        · exact ((tile_covers_iff w ts px _ hts hw hpx (div_lt_tilesAcross w ts px hts hpx)).mpr rfl).2
        · exact ((tile_covers_iff h ts py _ hts hh hpy (div_lt_tilesAcross h ts py hts hpy)).mpr rfl).1
        · exact ((tile_covers_iff h ts py _ hts hh hpy (div_lt_tilesAcross h ts py hts hpy)).mpr rfl).2
    rw [hcong, filter_eq_singleton_of_nodup _ (mkTiles_nodup _ _) _
      ((mem_mkTiles _ _ _).mpr ⟨div_lt_tilesAcross w ts px hts hpx,
        div_lt_tilesAcross h ts py hts hpy⟩)]
    rfl
  · intro r hr
    unfold tileRects at hr
    rcases List.mem_map.mp hr with ⟨t, ht, rfl⟩
    rw [mem_mkTiles] at ht
    have hx := tile_start_lt w ts t.1 hts hw ht.1
    have hy := tile_start_lt h ts t.2 hts hh ht.2
    unfold tileRect
    simp only
    omega

/-- C5 witness: the partition theorem applied to a 3 × 2 canvas with
tile size 2, projected to the pixel `(2, 1)` and the first tile. -/
theorem tileRects_partition_witness :
    (tileRects 3 2 2).length = tilesAcross 3 2 * tilesAcross 2 2 ∧
      coveringRects 3 2 2 2 1 = [tileRect 3 2 2 (2 / 2, 1 / 2)] ∧
      (tileRect 3 2 2 (0, 0)).x + (tileRect 3 2 2 (0, 0)).width ≤ 3 := by
  have h := tileRects_partition 3 2 2 (by decide) (by decide) (by decide)
  refine ⟨h.1, h.2.1 2 1 (by decide) (by decide), ?_⟩
  have hm : tileRect 3 2 2 (0, 0) ∈ tileRects 3 2 2 := by decide
  exact (h.2.2 _ hm).1

/-! ## Centre-out stable sorting (C7) -/

/-- Every grid tile's squared centre distance is below `distBound`. -/
lemma distKey_lt_bound (X Y : ℕ) (t : ℕ × ℕ) (ht : t ∈ mkTiles X Y) :
    distKey X Y t < distBound X Y := by
  rw [mem_mkTiles] at ht
  obtain ⟨tx, ty⟩ := t
  obtain ⟨h1, h2⟩ := ht
  show ((tx : ℤ) - ((X / 2 : ℕ) : ℤ)).natAbs ^ 2 +
      ((ty : ℤ) - ((Y / 2 : ℕ) : ℤ)).natAbs ^ 2 < X ^ 2 + Y ^ 2 + 1
  have ha : ((tx : ℤ) - ((X / 2 : ℕ) : ℤ)).natAbs ≤ X := by
    have hc : X / 2 ≤ X := Nat.div_le_self X 2
    omega
  have hb : ((ty : ℤ) - ((Y / 2 : ℕ) : ℤ)).natAbs ≤ Y := by
    have hc : Y / 2 ≤ Y := Nat.div_le_self Y 2
    omega
  have ha2 := Nat.pow_le_pow_left ha 2
  have hb2 := Nat.pow_le_pow_left hb 2
  omega

/-- Regrouping a `<` filter and an `=` filter into a `< +1` filter, up to
permutation. -/
lemma filter_lt_append_filter_eq_perm {α : Type} (k : α → ℕ) (m : ℕ) : ∀ l : List α,
    (l.filter (fun t => decide (k t < m)) ++ l.filter (fun t => decide (k t = m))).Perm
      (l.filter (fun t => decide (k t < m + 1)))
  | [] => by simp
  | x :: xs => by
    rw [List.filter_cons, List.filter_cons, List.filter_cons]
    by_cases h1 : k x < m
    · rw [if_pos (by simp [h1]), if_neg (by simp; omega), if_pos (by simp; omega)]
      exact (filter_lt_append_filter_eq_perm k m xs).cons x
    · by_cases h2 : k x = m
      · rw [if_neg (by simp [h1]), if_pos (by simp [h2]), if_pos (by simp; omega)]
        exact List.perm_middle.trans ((filter_lt_append_filter_eq_perm k m xs).cons x)
      · rw [if_neg (by simp [h1]), if_neg (by simp [h2]), if_neg (by simp; omega)]
        exact filter_lt_append_filter_eq_perm k m xs

/-- Concatenating the per-key blocks in key order permutes the `< n`
filter. -/
lemma gather_perm_filter_lt {α : Type} (k : α → ℕ) (l : List α) : ∀ n : ℕ,
    ((List.range n).flatMap (fun d => l.filter (fun t => decide (k t = d)))).Perm
      (l.filter (fun t => decide (k t < n)))
  | 0 => by simp
  | n + 1 => by
    rw [show n + 1 = n.succ from rfl, List.range_succ, List.flatMap_append]
    have h1 : (List.flatMap [n] fun d => l.filter (fun t => decide (k t = d))) =
        l.filter (fun t => decide (k t = n)) := by simp
    rw [h1]
    exact ((gather_perm_filter_lt k l n).append (List.Perm.refl _)).trans
      (filter_lt_append_filter_eq_perm k n l)

/-- The per-key block concatenation is sorted by the key. -/
lemma gather_pairwise {α : Type} (k : α → ℕ) (l : List α) (n : ℕ) :
    List.Pairwise (fun a b => k a ≤ k b)
      ((List.range n).flatMap (fun d => l.filter (fun t => decide (k t = d)))) := by
  induction n with
  | zero => simp
  | succ m ih =>
    rw [List.range_succ, List.flatMap_append]
    rw [List.pairwise_append]
    refine ⟨ih, ?_, ?_⟩
    · apply List.pairwise_of_forall_mem_list
      intro a ha b hb
      simp only [List.flatMap_cons, List.flatMap_nil, List.append_nil, List.mem_filter,
        decide_eq_true_eq] at ha hb
      omega
    · intro a ha b hb
      simp only [List.mem_flatMap, List.mem_range, List.mem_filter, decide_eq_true_eq] at ha
      simp only [List.flatMap_cons, List.flatMap_nil, List.append_nil, List.mem_filter,
        decide_eq_true_eq] at hb
      obtain ⟨d, hd, -, hkd⟩ := ha
      omega

/-- Filtering the per-key block concatenation by one key recovers that
key's block. -/
lemma gather_filter_eq {α : Type} (k : α → ℕ) (l : List α) : ∀ n d : ℕ,
    ((List.range n).flatMap (fun e => l.filter (fun t => decide (k t = e)))).filter
        (fun t => decide (k t = d)) =
      if d < n then l.filter (fun t => decide (k t = d)) else [] := by
  intro n
  induction n with
  | zero => simp
  | succ m ih =>
    intro d
    rw [List.range_succ, List.flatMap_append, List.filter_append, ih d]
    have h1 : (List.flatMap [m] fun e => l.filter (fun t => decide (k t = e))).filter
        (fun t => decide (k t = d)) =
        (l.filter (fun t => decide (k t = m))).filter (fun t => decide (k t = d)) := by
      simp
    rw [h1, List.filter_filter]
    by_cases hdm : d = m
    · subst hdm
      rw [if_neg (lt_irrefl d), if_pos (Nat.lt_succ_self d)]
      simp
    · have h2 : l.filter (fun a => decide (k a = d) && decide (k a = m)) = [] := by
        rw [List.filter_eq_nil_iff]
        intro a ha
        simp only [Bool.and_eq_true, decide_eq_true_eq]
        rintro ⟨rfl, hm⟩
        exact hdm hm
      rw [h2, List.append_nil]
      by_cases hdlt : d < m
      · rw [if_pos hdlt, if_pos (by omega)]
      · rw [if_neg hdlt, if_neg (by omega)]

/-- The centre-out sort is a permutation of the row-major grid. -/
lemma sortTiles_perm_mkTiles (X Y : ℕ) : (sortTiles X Y).Perm (mkTiles X Y) := by
  unfold sortTiles
  refine (gather_perm_filter_lt _ _ _).trans ?_
  rw [List.filter_eq_self.mpr ?_]
  intro t ht
  simpa using distKey_lt_bound X Y t ht

/-- C7: the worker's tile ordering is the stable centre-out sort: the
emitted sequence is a permutation of the row-major grid that is ascending
in squared centre distance, tiles at each fixed distance keep their
original row-major order, and on a 3 × 3 grid the centre tile `(1, 1)`
comes first. -/
theorem sortTiles_center_out_stable :
    (∀ X Y : ℕ,
      List.Pairwise (fun a b => distKey X Y a ≤ distKey X Y b) (sortTiles X Y) ∧
      (sortTiles X Y).Perm (mkTiles X Y) ∧
      ∀ d : ℕ, (sortTiles X Y).filter (fun t => decide (distKey X Y t = d)) =
        (mkTiles X Y).filter (fun t => decide (distKey X Y t = d))) ∧
    (sortTiles 3 3).head? = some (1, 1) := by
  constructor
  · intro X Y
    refine ⟨gather_pairwise _ _ _, sortTiles_perm_mkTiles X Y, ?_⟩
    · intro d
      unfold sortTiles
      rw [gather_filter_eq]
      by_cases hd : d < distBound X Y
      · rw [if_pos hd]
      · rw [if_neg hd]
        symm
        rw [List.filter_eq_nil_iff]
        intro t ht
        simp only [decide_eq_true_eq]
        intro hkt
        exact hd (hkt ▸ distKey_lt_bound X Y t ht)
  · decide

/-! ## Worker event-loop lemmas (C8, C9, C10) -/

lemma respAt_requestId (r : RenderRequest) (i : ℕ) : (respAt r i).requestId = r.requestId := rfl

lemma respAt_iterationData (r : RenderRequest) (i : ℕ) : (respAt r i).iterationData = none := rfl

lemma runWorker_nil (fuel : ℕ) (cur : ℤ) : runWorker fuel cur [] = [] := by
  cases fuel <;> rfl

/-- `e` is a render message carrying request id `R`. -/
def rendersWithId (R : ℤ) : WorkerEvent → Prop
  | .msg (.render r) => r.requestId = R
  | _ => False

lemma respsFor_append (R : ℤ) (l1 l2 : List TileResponse) :
    respsFor R (l1 ++ l2) = respsFor R l1 ++ respsFor R l2 :=
  List.filter_append _ _

lemma respsFor_batchResponses (R : ℤ) (r : RenderRequest) (k : ℕ)
    (hne : r.requestId ≠ R) : respsFor R (batchResponses r k) = [] := by
  unfold respsFor
  rw [List.filter_eq_nil_iff]
  intro resp hresp
  rcases List.mem_map.mp hresp with ⟨i, -, rfl⟩
  simp only [respAt_requestId, decide_eq_true_eq]
  exact hne

/-- One unfolding of the event loop. -/
lemma runWorker_cons (f : ℕ) (cur : ℤ) (e : WorkerEvent) (q : List WorkerEvent) :
    runWorker (f + 1) cur (e :: q) =
      (workerStep cur e).out ++
        runWorker f (workerStep cur e).cur (q ++ (workerStep cur e).queued) :=
  rfl

/-- Safety invariant of the event loop: once the active id differs from
`R` and no queued event is a render for `R`, no response for `R` is ever
posted again. -/
lemma runWorker_no_id (R : ℤ) (hR : R ≠ -1) : ∀ (fuel : ℕ) (cur : ℤ) (q : List WorkerEvent),
    cur ≠ R → (∀ e ∈ q, ¬ rendersWithId R e) →
    respsFor R (runWorker fuel cur q) = [] := by
  intro fuel
  induction fuel with
  | zero => intro cur q h1 h2; rfl
  | succ f ih =>
    intro cur q hcur hq
    match q with
    | [] => rfl
    | e :: q' =>
      have hq' : ∀ x ∈ q', ¬ rendersWithId R x := fun x hx => hq x (List.mem_cons_of_mem _ hx)
      have hguard : ∀ (r : RenderRequest) (k : ℕ),
          ∀ x ∈ (if batchEnd r k < totalTiles r
            then [WorkerEvent.timer ⟨r, batchEnd r k⟩] else []),
          ¬ rendersWithId R x := by
        intro r k x hx
        obtain ⟨-, hmem⟩ := List.mem_ite_nil_right.mp hx
        rw [List.mem_singleton] at hmem
        subst hmem
        exact not_false
      rw [runWorker_cons]
      cases e with
      | msg m =>
        cases m with
        | cancel c =>
          rw [show workerStep cur (WorkerEvent.msg (.cancel c)) =
            ({ cur := -1, out := [], queued := [] } : StepResult) from rfl]
          rw [show respsFor R ([] ++ runWorker f (-1) (q' ++ [])) =
            respsFor R (runWorker f (-1) (q' ++ [])) from rfl, List.append_nil]
          exact ih (-1) q' (fun h => hR h.symm) hq'
        | render r =>
          have hrid : r.requestId ≠ R := hq _ (List.mem_cons_self _ _)
          rw [show workerStep cur (WorkerEvent.msg (.render r)) =
            ({ cur := r.requestId, out := batchResponses r 0,
               queued := if batchEnd r 0 < totalTiles r
                 then [WorkerEvent.timer ⟨r, batchEnd r 0⟩] else [] } : StepResult) from rfl]
          rw [respsFor_append, respsFor_batchResponses R r 0 hrid, List.nil_append]
          apply ih _ _ hrid
          intro x hx
          rcases List.mem_append.mp hx with h | h
          · exact hq' x h
          · exact hguard r 0 x h
      | timer job =>
        by_cases hj : cur = job.req.requestId
        · have hstep : workerStep cur (WorkerEvent.timer job) =
              { cur := cur, out := batchResponses job.req job.tileIndex,
                queued := if batchEnd job.req job.tileIndex < totalTiles job.req
                  then [WorkerEvent.timer ⟨job.req, batchEnd job.req job.tileIndex⟩] else [] } := by
            simp only [workerStep, if_pos hj]
          rw [hstep, respsFor_append,
            respsFor_batchResponses R job.req job.tileIndex (fun hh => hcur (hj.trans hh)),
            List.nil_append]
          apply ih _ _ hcur
          intro x hx
          rcases List.mem_append.mp hx with h | h
          · exact hq' x h
          · exact hguard job.req job.tileIndex x h
        · have hstep : workerStep cur (WorkerEvent.timer job) =
              { cur := cur, out := [], queued := [] } := by
            simp only [workerStep, if_neg hj]
          rw [hstep, List.nil_append, List.append_nil]
          exact ih cur q' hcur hq'

/-- C8 (amended): after the worker processes a `CancelRequest` while
`R ≠ -1` is the active id, and no later event re-issues a render with id
`R`, no further `TileResponse` carries `requestId = R` — every batch step
and render step re-checks the active id, which the cancel has set to the
sentinel `-1`.  (As stated, the claim fails for `R = -1`: a render request
carrying the sentinel id keeps emitting after a cancel, see the
counterexample; it would also fail if a later render reused id `R`, which
the compositor's monotone counter never does.) -/
theorem no_responses_after_cancel (fuel : ℕ) (cur : ℤ) (q : List WorkerEvent) (c R : ℤ)
    (hR : R ≠ -1) (_hactive : cur = R)
    (hq : ∀ e ∈ q, ¬ rendersWithId R e) :
    respsFor R (runWorker fuel cur (WorkerEvent.msg (.cancel c) :: q)) = [] := by
  match fuel with
  | 0 => rfl
  | f + 1 =>
    show respsFor R ([] ++ runWorker f (-1) (q ++ [])) = []
    rw [List.nil_append, List.append_nil]
    exact runWorker_no_id R hR f (-1) q (fun h => hR h.symm) hq

/-- A pending continuation for request id 5 over a 2 × 1 canvas with
1-pixel tiles, one tile per batch. -/
def pendingReq5 : RenderRequest :=
  { canvasWidth := 2, canvasHeight := 1, viewport := ⟨0, 0, 400⟩, params := defaultParams,
    quality := ⟨4, 1, 1⟩, requestId := 5, storeIterations := true }

/-- C8 witness: the amended theorem applied with `R = 5` active, a cancel,
and a pending batch continuation for id 5 in the queue. -/
theorem no_responses_after_cancel_witness :
    respsFor 5 (runWorker 5 5
      (WorkerEvent.msg (.cancel 3) :: [WorkerEvent.timer ⟨pendingReq5, 1⟩])) = [] := by
  apply no_responses_after_cancel 5 5 [WorkerEvent.timer ⟨pendingReq5, 1⟩] 3 5 (by decide) rfl
  intro e he
  rw [List.mem_singleton] at he
  subst he
  exact not_false

/-- The same request shape as `pendingReq5` but carrying the worker's
cancel sentinel `-1` as its request id. -/
def sentinelReq : RenderRequest :=
  { canvasWidth := 2, canvasHeight := 1, viewport := ⟨0, 0, 400⟩, params := defaultParams,
    quality := ⟨4, 1, 1⟩, requestId := -1, storeIterations := true }

/-- C8 counterexample: a render request with id `R = -1` installs `-1` as
the active id and leaves a batch continuation pending; processing a
`CancelRequest` while `R` is active sets the active id to `-1`, which
still equals `R`, so the pending continuation afterwards emits another
`TileResponse` with `requestId = R` — the claim "never emits another
TileResponse with requestId = R after a cancel processed while R is
active" is false at `R = -1`. -/
theorem cancel_sentinel_leak :
    workerStep 0 (WorkerEvent.msg (.render sentinelReq)) =
      { cur := -1, out := [respAt sentinelReq 0],
        queued := [WorkerEvent.timer ⟨sentinelReq, 1⟩] } ∧
    workerStep (-1) (WorkerEvent.msg (.cancel 7)) = { cur := -1, out := [], queued := [] } ∧
    workerStep (-1) (WorkerEvent.timer ⟨sentinelReq, 1⟩) =
      { cur := -1, out := [respAt sentinelReq 1], queued := [] } ∧
    (respAt sentinelReq 1).requestId = -1 :=
  ⟨rfl, rfl, rfl, rfl⟩

/-- C9: the worker's cancel handling ignores the `requestId` field carried
by the message — any cancel, in any state, sets the active id to `-1` and
emits nothing — and consequently a pending batch continuation for any
request whose id is not `-1` is halted. -/
theorem cancel_ignores_carried_id :
    (∀ cur c : ℤ, workerStep cur (WorkerEvent.msg (.cancel c)) =
      { cur := -1, out := [], queued := [] }) ∧
    (∀ job : Job, job.req.requestId ≠ -1 →
      workerStep (-1) (WorkerEvent.timer job) = { cur := -1, out := [], queued := [] }) := by
  constructor
  · intro cur c
    rfl
  · intro job hid
    simp only [workerStep]
    rw [if_neg (fun h => hid h.symm)]

/-- C9 witness: the theorem applied to the cancel of an arbitrary carried
id and to a pending continuation with id 5. -/
theorem cancel_ignores_carried_id_witness :
    workerStep 9 (WorkerEvent.msg (.cancel 42)) = { cur := -1, out := [], queued := [] } ∧
      workerStep (-1) (WorkerEvent.timer ⟨pendingReq5, 1⟩) =
        { cur := -1, out := [], queued := [] } :=
  ⟨cancel_ignores_carried_id.1 9 42, cancel_ignores_carried_id.2 ⟨pendingReq5, 1⟩ (by decide)⟩

/-! ## The iteration-data cache is never populated (C10) -/

lemma mem_batchResponses_iterationData (r : RenderRequest) (k : ℕ) (resp : TileResponse)
    (h : resp ∈ batchResponses r k) : resp.iterationData = none := by
  rcases List.mem_map.mp h with ⟨i, -, rfl⟩
  rfl

lemma runWorker_iterationDataFree (fuel : ℕ) : ∀ (cur : ℤ) (q : List WorkerEvent),
    iterationDataFree (runWorker fuel cur q) := by
  induction fuel with
  | zero => intro cur q resp h; cases h
  | succ f ih =>
    intro cur q
    match q with
    | [] => intro resp h; cases h
    | e :: q' =>
      intro resp hresp
      simp only [runWorker] at hresp
      rcases List.mem_append.mp hresp with h | h
      · cases e with
        | msg m =>
          cases m with
          | cancel c => cases h
          | render r => exact mem_batchResponses_iterationData r 0 resp h
        | timer job =>
          by_cases hj : cur = job.req.requestId
          · simp only [workerStep, if_pos hj] at h
            exact mem_batchResponses_iterationData job.req job.tileIndex resp h
          · simp only [workerStep, if_neg hj] at h
            cases h
      · exact ih _ _ resp h

lemma renderStep_iterationData (s : RState) : (renderStep s).1.iterationData = s.iterationData :=
  rfl

/-- No renderer entry point except `storeIterationData` ever writes the
iteration-data cache. -/
lemma applyOp_keeps_iterationData_none (op : RendererOp) (s : RState)
    (hop : ¬ isStoreOp op) (hs : s.iterationData = none) :
    (applyOp op s).1.iterationData = none := by
  cases op with
  | render => exact hs
  | resize w h => exact hs
  | pan dx dy =>
    simp only [applyOp, panStep]
    split_ifs <;> exact hs
  | zoomBy f mouse =>
    rcases mouse with - | ⟨mx, my⟩ <;>
      · simp only [applyOp, zoomStep]
        split_ifs <;> exact hs
  | updateHue hue =>
    simp only [applyOp, updateParamsHue]
    split_ifs with h
    · exact absurd hs h
    · exact hs
  | updateFull p => exact hs
  | setResolution m =>
    simp only [applyOp, setResolutionStep]
    split_ifs <;> exact hs
  | startInteraction => exact hs
  | endInteraction => exact hs
  | tileMessage resp =>
    simp only [applyOp, tileMessageStep, saveToBackground]
    split_ifs <;> exact hs
  | storeIterations data => exact absurd trivial hop

lemma runOps_iterationData_none (s : RState) (ops : List RendererOp)
    (hops : ∀ op ∈ ops, ¬ isStoreOp op) (hs : s.iterationData = none) :
    (runOps s ops).iterationData = none := by
  induction ops generalizing s with
  | nil => exact hs
  | cons op rest ih =>
    exact ih (applyOp op s).1 (fun o ho => hops o (List.mem_cons_of_mem _ ho))
      (applyOp_keeps_iterationData_none op s (hops op (List.mem_cons_self _ _)) hs)

lemma updateParamsHue_render_path (hue : ℝ) (s : RState) (hs : s.iterationData = none) :
    updateParamsHue hue s =
      renderStep { s with params := { s.params with colorHue := hue } } := by
  simp only [updateParamsHue]
  rw [if_neg (fun h => h hs)]

/-- C10: through the shipped wiring the iteration-data cache is never
populated — the worker's event loop never attaches `iterationData` to any
response, and any sequence of renderer operations that does not invoke
`storeIterationData` externally leaves the cache `none`, so a
`colorHue`-only `updateParams` call on such a state takes the full
re-render path (it behaves exactly as `render` after merging the hue),
never the fast-recolor path. -/
theorem iterationData_never_populated :
    (∀ (fuel : ℕ) (cur : ℤ) (q : List WorkerEvent),
      iterationDataFree (runWorker fuel cur q)) ∧
    (∀ (w h : ℕ) (v : Viewport) (p : FractalParams) (ops : List RendererOp),
      (∀ op ∈ ops, ¬ isStoreOp op) →
      (runOps (initState w h v p) ops).iterationData = none ∧
      ∀ hue : ℝ, updateParamsHue hue (runOps (initState w h v p) ops) =
        renderStep { runOps (initState w h v p) ops with
          params := { (runOps (initState w h v p) ops).params with colorHue := hue } }) := by
  refine ⟨runWorker_iterationDataFree, ?_⟩
  intro w h v p ops hops
  have hnone : (runOps (initState w h v p) ops).iterationData = none :=
    runOps_iterationData_none _ ops hops rfl
  exact ⟨hnone, fun hue => updateParamsHue_render_path hue _ hnone⟩

/-- The renderer state after a `startInteraction` call on a fresh
instance. -/
noncomputable def c10State : RState :=
  runOps (initState 1 1 ⟨0, 0, 1⟩ defaultParams) [RendererOp.startInteraction]

/-- C10 witness: the theorem applied to a fresh renderer that received one
`startInteraction` call, then a hue-only parameter update. -/
theorem iterationData_never_populated_witness :
    c10State.iterationData = none ∧
      updateParamsHue 0 c10State =
        renderStep { c10State with params := { c10State.params with colorHue := 0 } } := by
  have h := iterationData_never_populated.2 1 1 ⟨0, 0, 1⟩ defaultParams
    [RendererOp.startInteraction]
    (by
      intro op hop
      rw [List.mem_singleton] at hop
      subst hop
      exact not_false)
  exact ⟨h.1, h.2 0⟩

/-! ## Complete, exactly-once emission of an uncancelled render (C6) -/

lemma tilesAcross_pos (w ts : ℕ) (hw : 0 < w) (hts : 0 < ts) : 0 < tilesAcross w ts := by
  unfold tilesAcross
  have h := (Nat.one_le_div_iff hts).mpr (show ts ≤ w + ts - 1 by omega)
  omega

lemma totalTiles_pos (r : RenderRequest) (hw : 0 < r.canvasWidth) (hh : 0 < r.canvasHeight)
    (hts : 0 < r.quality.tileSize) : 0 < totalTiles r :=
  Nat.mul_pos (tilesAcross_pos _ _ hw hts) (tilesAcross_pos _ _ hh hts)

lemma reqTiles_length (r : RenderRequest) : (reqTiles r).length = totalTiles r := by
  unfold reqTiles totalTiles reqTilesX reqTilesY
  rw [(sortTiles_perm_mkTiles _ _).length_eq, mkTiles_length]
  exact Nat.mul_comm _ _

lemma map_getD_range {α : Type} (l : List α) (d : α) :
    (List.range l.length).map (fun i => l.getD i d) = l := by
  apply List.ext_getElem
  · simp
  · intro i h1 h2
    simp only [List.getElem_map, List.getElem_range]
    exact l.getD_eq_getElem d h2

/-- Running the pending-batch chain from index `k` emits precisely the
responses for sorted indices `k, …, totalTiles - 1`. -/
lemma runWorker_timer_chain (r : RenderRequest) (htpf : 0 < r.quality.tilesPerFrame) :
    ∀ (fuel k : ℕ), k < totalTiles r → totalTiles r - k ≤ fuel →
      runWorker fuel r.requestId [WorkerEvent.timer ⟨r, k⟩] =
        (List.range' k (totalTiles r - k)).map (respAt r) := by
  intro fuel
  induction fuel with
  | zero =>
    intro k hk hle
    exfalso
    omega
  | succ f ih =>
    intro k hk hle
    rw [runWorker_cons]
    have hstep : workerStep r.requestId (WorkerEvent.timer ⟨r, k⟩) =
        { cur := r.requestId, out := batchResponses r k,
          queued := if batchEnd r k < totalTiles r
            then [WorkerEvent.timer ⟨r, batchEnd r k⟩] else [] } := by
      simp only [workerStep, if_pos rfl]
      rw [if_pos trivial]
    rw [hstep]
    have hbk : k ≤ batchEnd r k := by
      unfold batchEnd
      omega
    have hbe_le : batchEnd r k ≤ totalTiles r := min_le_right _ _
    by_cases hlt : batchEnd r k < totalTiles r
    · rw [if_pos hlt]
      have hbk1 : k + r.quality.tilesPerFrame = batchEnd r k := by
        unfold batchEnd at hlt ⊢
        omega
      have hrec := ih (batchEnd r k) hlt (by omega)
      rw [List.nil_append, hrec]
      unfold batchResponses
      rw [← List.map_append]
      congr 1
      have h := List.range'_append k (batchEnd r k - k) (totalTiles r - batchEnd r k) 1
      rw [show k + 1 * (batchEnd r k - k) = batchEnd r k by omega] at h
      rw [show totalTiles r - batchEnd r k + (batchEnd r k - k) = totalTiles r - k by omega] at h
      exact h
    · rw [if_neg hlt]
      have hbeq : batchEnd r k = totalTiles r := by omega
      rw [List.nil_append, runWorker_nil, List.append_nil]
      unfold batchResponses
      rw [hbeq]

/-- C6: an uncancelled render request over a positive canvas with a
positive tile size and batch size, run to completion, emits exactly the
response sequence `respAt r 0, …, respAt r (totalTiles - 1)`; the posted
tile positions are a permutation of the (duplicate-free) grid positions —
exactly one response per tile — and a response's `isComplete` flag is set
iff its running emission count `i + 1` equals `totalTiles`, i.e. exactly
on the last response. -/
theorem worker_emission_complete_flag (r : RenderRequest) (cur : ℤ) (fuel : ℕ)
    (hw : 0 < r.canvasWidth) (hh : 0 < r.canvasHeight)
    (hts : 0 < r.quality.tileSize) (htpf : 0 < r.quality.tilesPerFrame)
    (hfuel : totalTiles r ≤ fuel) :
    runWorker (fuel + 1) cur [WorkerEvent.msg (.render r)] =
      (List.range (totalTiles r)).map (respAt r) ∧
    ((List.range (totalTiles r)).map
        (fun i => ((respAt r i).tile.x, (respAt r i).tile.y))).Perm
      ((mkTiles (reqTilesX r) (reqTilesY r)).map
        (fun t => (t.1 * r.quality.tileSize, t.2 * r.quality.tileSize))) ∧
    ((mkTiles (reqTilesX r) (reqTilesY r)).map
        (fun t => (t.1 * r.quality.tileSize, t.2 * r.quality.tileSize))).Nodup ∧
    (∀ i : ℕ, (respAt r i).isComplete = true ↔ i + 1 = totalTiles r) := by
  have htot : 0 < totalTiles r := totalTiles_pos r hw hh hts
  refine ⟨?_, ?_, ?_, ?_⟩
  · rw [runWorker_cons]
    rw [show workerStep cur (WorkerEvent.msg (.render r)) =
      ({ cur := r.requestId, out := batchResponses r 0,
         queued := if batchEnd r 0 < totalTiles r
           then [WorkerEvent.timer ⟨r, batchEnd r 0⟩] else [] } : StepResult) from rfl]
    have hbk : 0 < batchEnd r 0 := by
      unfold batchEnd
      omega
    by_cases hlt : batchEnd r 0 < totalTiles r
    · rw [if_pos hlt]
      have hrec := runWorker_timer_chain r htpf fuel (batchEnd r 0) hlt (by omega)
      rw [List.nil_append, hrec]
      unfold batchResponses
      rw [← List.map_append]
      congr 1
      have h := List.range'_append 0 (batchEnd r 0 - 0) (totalTiles r - batchEnd r 0) 1
      rw [show 0 + 1 * (batchEnd r 0 - 0) = batchEnd r 0 by omega] at h
      rw [show totalTiles r - batchEnd r 0 + (batchEnd r 0 - 0) = totalTiles r - 0 by omega] at h
      rw [List.range_eq_range']
      rw [show totalTiles r = totalTiles r - 0 by omega]
      exact h
    · rw [if_neg hlt]
      have hbeq : batchEnd r 0 = totalTiles r := by
        have := min_le_right (0 + r.quality.tilesPerFrame) (totalTiles r)
        unfold batchEnd at hlt ⊢
        omega
      rw [List.nil_append, runWorker_nil, List.append_nil]
      unfold batchResponses
      rw [hbeq, List.range_eq_range']
      rfl
  · have hfun : (fun i => ((respAt r i).tile.x, (respAt r i).tile.y)) =
        (fun t : ℕ × ℕ => (t.1 * r.quality.tileSize, t.2 * r.quality.tileSize)) ∘
          (fun i => (reqTiles r).getD i (0, 0)) := rfl
    rw [hfun, show totalTiles r = (reqTiles r).length from (reqTiles_length r).symm,
      ← List.map_map, map_getD_range]
    exact (sortTiles_perm_mkTiles _ _).map _
  · apply List.Nodup.map _ (mkTiles_nodup _ _)
    intro a b hab
    obtain ⟨h1, h2⟩ := Prod.mk.injEq .. |>.mp hab
    exact Prod.ext (Nat.eq_of_mul_eq_mul_right hts h1) (Nat.eq_of_mul_eq_mul_right hts h2)
  · intro i
    show decide (i + 1 = totalTiles r) = true ↔ i + 1 = totalTiles r
    simp

/-- A one-tile render request over a 1 × 1 canvas. -/
def oneTileReq : RenderRequest :=
  { canvasWidth := 1, canvasHeight := 1, viewport := ⟨0, 0, 1⟩, params := defaultParams,
    quality := ⟨4, 1, 1⟩, requestId := 1, storeIterations := true }

/-- C6 witness: the emission theorem applied to the one-tile request with
just enough fuel, projected to the run equality and the `isComplete` flag
of the first (and only) response. -/
theorem worker_emission_complete_flag_witness :
    runWorker 2 0 [WorkerEvent.msg (.render oneTileReq)] =
      (List.range (totalTiles oneTileReq)).map (respAt oneTileReq) ∧
      ((respAt oneTileReq 0).isComplete = true ↔ 0 + 1 = totalTiles oneTileReq) := by
  have h := worker_emission_complete_flag oneTileReq 0 1 (by decide) (by decide) (by decide)
    (by decide) (by decide)
  exact ⟨h.1, h.2.2.2 0⟩

end Caesar
